import Mathlib

/-!
Shallow embedding of the DKP auction engine
(`src/comrade/plugins/dkp/auction.py`) and proofs about it.

Timestamps are modelled as integers (seconds on an abstract timeline);
every function that reads the clock in the source receives the current
time `now` explicitly.  Python sets of bids are modelled as lists in
insertion order; `sorted(..., reverse=True)` is stable, which the
insertion sort used here reproduces.
-/

/-- `Status` enum from the source. -/
inductive Status where
  | Running
  | Stopped
  | Finished
deriving DecidableEq, Repr

/-- `BidderRank` enum from the source. -/
inductive BidderRank where
  | Raider
  | Alt
  | Recruit
  | Member
deriving DecidableEq, Repr

/-- `AuctionItem` frozen attrs class: name, quantity, who added it. -/
structure AuctionItem where
  item : String
  quantity : Int
  added_by : String
deriving DecidableEq, Repr

/-- `Bid` frozen attrs class: bidder identity, rank, amount, auxiliary id. -/
structure Bid where
  bidder : String
  rank : BidderRank
  bid : Int
  id : Int := 0
deriving DecidableEq, Repr

/-- `AuctionResults` frozen attrs class: winners, tied bids, rolled count. -/
structure AuctionResults where
  winners : List Bid := []
  tied : List Bid := []
  rolled : Int := 0
deriving DecidableEq, Repr

/-- `RunningAuction` mutable attrs class: one per channel while active. -/
structure RunningAuction where
  item : AuctionItem
  status : Status := .Running
  started_at : Int
  last_bid : Option Int := none
  last_updated : Option Int := none
  bids : List Bid := []
  results : Option AuctionResults := none
deriving DecidableEq, Repr

/-- The auction limits configuration (`self._limits`): member threshold,
valuable threshold, minimum and maximum bid. -/
structure Limits where
  member : Int
  valuable : Int
  minimum : Int
  maximum : Int
deriving DecidableEq, Repr

/-!
Modelled from the spec: the `CharacterDKP` provider class
(`comrade/plugins/dkp/provider.py`) is not among the given sources; the
source does `dkp.get(bidder, CharacterDKP(name=bidder)).current` and the
spec says a bidder absent from the balance snapshot is treated as having
a balance of 0.  The mapping together with that default collapses to a
total function `String → Int`, used as the balance snapshot below.
-/

/-- `validate_bid` from the source: returns `(ok, reason)`.  The `elif`
chain falls through to the final balance check on the two waiver branches
(all-in bid, or matching an existing live bid amount). -/
def validate_bid (bidder : String) (bid_amount : Int) (bids : List Bid)
    (dkp : String → Int) (valuable_threshold minimum maximum : Int) :
    Bool × String :=
  let current := dkp bidder
  let final : Bool × String :=
    if bid_amount > current then
      (false, "Error: Invalid Bid (not enough dkp).")
    else
      (true, "")
  if bid_amount > maximum then
    (false, "Error: Invalid Bid (bids above " ++ toString maximum ++
      " are not allowed).")
  else if bid_amount < minimum then
    (false, "Error: Invalid bid (bids below " ++ toString minimum ++
      " are not allowed).")
  else if current = bid_amount then
    final
  else if bids.any (fun b => b.bid = bid_amount) then
    final
  else if bid_amount ≥ valuable_threshold ∧ bid_amount % 5 ≠ 0 then
    (false, "Error: Invalid Bid (bids above " ++ toString valuable_threshold ++
      " must be in increments of 5).")
  else
    final

/-- `_bid_key` from the source: composite sort key
`(isHighPriority, amount, current balance)`. -/
def bid_key (dkp : String → Int) (member_treshold : Int) (b : Bid) :
    Int × Int × Int :=
  (if b.bid ≥ member_treshold ∧ b.rank = BidderRank.Raider then 1 else 0,
   b.bid,
   dkp b.bidder)

/-- Lexicographic order on the composite key triples (how Python compares
the tuples returned by `_bid_key`). -/
def KeyLE (x y : Int × Int × Int) : Prop :=
  x.1 < y.1 ∨ (x.1 = y.1 ∧
    (x.2.1 < y.2.1 ∨ (x.2.1 = y.2.1 ∧ x.2.2 ≤ y.2.2)))

instance : DecidableRel KeyLE := fun x y => by
  unfold KeyLE; infer_instance

/-- `a` sorts at or before `b` in the descending order used by
`sorted(auction.bids, key=_bid_key(...), reverse=True)`. -/
def BidDesc (dkp : String → Int) (member_treshold : Int) (a b : Bid) : Prop :=
  KeyLE (bid_key dkp member_treshold b) (bid_key dkp member_treshold a)

instance (dkp : String → Int) (mt : Int) : DecidableRel (BidDesc dkp mt) :=
  fun a b => by unfold BidDesc; infer_instance

instance (dkp : String → Int) (mt : Int) : IsTotal Bid (BidDesc dkp mt) where
  total a b := by
    unfold BidDesc KeyLE
    rcases bid_key dkp mt a with ⟨x1, x2, x3⟩
    rcases bid_key dkp mt b with ⟨y1, y2, y3⟩
    simp only []
    omega

instance (dkp : String → Int) (mt : Int) : IsTrans Bid (BidDesc dkp mt) where
  trans a b c hab hbc := by
    unfold BidDesc KeyLE at *
    generalize bid_key dkp mt a = x at *
    generalize bid_key dkp mt b = y at *
    generalize bid_key dkp mt c = z at *
    obtain ⟨x1, x2, x3⟩ := x
    obtain ⟨y1, y2, y3⟩ := y
    obtain ⟨z1, z2, z3⟩ := z
    simp only [] at *
    omega

/-- `sorted(auction.bids, key=_bid_key(dkp, mt), reverse=True)`: a stable
descending sort by the composite key. -/
def sortBids (dkp : String → Int) (mt : Int) (l : List Bid) : List Bid :=
  l.insertionSort (BidDesc dkp mt)

/-- Worker of `_filter_bids`, carrying the `seen` set of `(bidder, id)`
pairs. -/
def filter_bids_aux : List (String × Int) → List Bid → List Bid
  | _, [] => []
  | seen, b :: bs =>
    if (b.bidder, b.id) ∈ seen then
      filter_bids_aux seen bs
    else
      b :: filter_bids_aux ((b.bidder, b.id) :: seen) bs

/-- `_filter_bids` from the source: keep the first occurrence of each
`(bidder, id)` pair. -/
def filter_bids (bs : List Bid) : List Bid :=
  filter_bids_aux [] bs

/-- Worker for `groupRuns`: given the first element of the current run
and the rest of the list, return that run and the groups after it. -/
def groupRunsAux (key : Bid → Int × Int × Int) :
    Bid → List Bid → List Bid × List (List Bid)
  | x, [] => ([x], [])
  | x, y :: ys =>
    let r := groupRunsAux key y ys
    if key y = key x then (x :: r.1, r.2) else ([x], r.1 :: r.2)

/-- `itertools.groupby` over the sorted, filtered bids: split a list into
maximal runs of consecutive elements with equal composite keys. -/
def groupRuns (key : Bid → Int × Int × Int) : List Bid → List (List Bid)
  | [] => []
  | x :: xs => (groupRunsAux key x xs).1 :: (groupRunsAux key x xs).2

/-- The allocation loop of `determine_results`: walk the priority groups,
awarding whole groups while they fit in the remaining need, stopping with
the whole group tied when one does not fit; returns
`(winners, tied, remaining need)`. -/
def allocGroups : List (List Bid) → Int → List Bid × List Bid × Int
  | [], need => ([], [], need)
  | g :: gs, need =>
    if (g.length : Int) ≤ need then
      if need - g.length = 0 then
        (g, [], 0)
      else
        let r := allocGroups gs (need - g.length)
        (g ++ r.1, r.2.1, r.2.2)
    else
      ([], g, need)

/-- `determine_results` from the source: sort the live bids descending by
the composite key, de-duplicate by `(bidder, id)`, group by equal keys and
run the allocation loop; everything still needed at the end is `rolled`
(`if need: rolled = need` — note this also fires when a tie stopped the
loop early). -/
def determine_results (auction : RunningAuction) (dkp : String → Int)
    (member_treshold : Int := 0) : AuctionResults :=
  let key := bid_key dkp member_treshold
  let all_bids := filter_bids (sortBids dkp member_treshold auction.bids)
  let r := allocGroups (groupRuns key all_bids) auction.item.quantity
  { winners := r.1, tied := r.2.1, rolled := r.2.2 }

/-- `RunningAuction.time_left` from the source, with the clock passed in:
baseline end 90s after start, pushed out by the last bid (+30s), by the
last update (+15s) when the update is the most recent event, and by
`now + 15s` when an update is still owed; clamped at 0. -/
def time_left (a : RunningAuction) (now : Int) : Int :=
  let e0 := a.started_at + 90
  let e1 :=
    match a.last_bid with
    | none => e0
    | some lb => if lb + 30 > e0 then lb + 30 else e0
  let e2 :=
    match a.last_updated, a.last_bid with
    | none, _ => e1
    | some lu, none => if lu + 15 > e1 then lu + 15 else e1
    | some lu, some lb =>
      if lu > lb then (if lu + 15 > e1 then lu + 15 else e1) else e1
  let e3 :=
    match a.last_updated, a.last_bid with
    | none, _ => if now + 15 > e2 then now + 15 else e2
    | some _, none => e2
    | some lu, some lb =>
      if lu < lb then (if now + 15 > e2 then now + 15 else e2) else e2
  if e3 > now then e3 - now else 0

/-- `RunningAuction.needs_update` from the source: false unless Running,
otherwise true once started > 30s ago, last bid (if any) > 10s ago and
last update (if any) > 30s ago (all strict comparisons in the source). -/
def needs_update (a : RunningAuction) (now : Int) : Bool :=
  if a.status ≠ Status.Running then
    false
  else
    decide (now - a.started_at > 30) &&
      (match a.last_bid with
       | none => true
       | some lb => decide (now - lb > 10)) &&
      (match a.last_updated with
       | none => true
       | some lu => decide (now - lu > 30))

/-- The body of an outbound `AuctionMessage`.  Static strings are kept
verbatim; messages whose source text interpolates structured data carry
that data as a payload. -/
inductive MsgBody where
  | text : String → MsgBody
  | auctionClosed : AuctionResults → MsgBody
  | auctionUpdate : AuctionItem → Int → AuctionResults → MsgBody
  | bidAnnounce : String → Int → MsgBody
  | stoppedItem : AuctionItem → MsgBody
  | acceptedResults : AuctionResults → MsgBody
  | reopening : AuctionItem → Int → MsgBody
  | restarting : AuctionItem → Int → MsgBody
  | deletedItem : AuctionItem → MsgBody
  | startingBid : AuctionItem → Int → MsgBody
deriving DecidableEq, Repr

/-- `AuctionMessage` frozen attrs class: channel, body, hidden flag. -/
structure AuctionMessage where
  channel : String
  message : MsgBody
  hidden : Bool := false
deriving DecidableEq, Repr

/-- The `Auctioneer` state: FIFO backlog, channel map (ordered, as a
Python dict), limits, and the last balance snapshot. -/
structure Auctioneer where
  pending_items : List AuctionItem
  channels : List (String × Option RunningAuction)
  limits : Limits
  dkp : String → Int

/-- Dict lookup on the channel map: `none` when the channel is not an
auction channel at all. -/
def lookupCh : List (String × Option RunningAuction) → String →
    Option (Option RunningAuction)
  | [], _ => none
  | (k, v) :: rest, c => if k = c then some v else lookupCh rest c

/-- Dict update `self._channels[channel] = v`. -/
def setCh (l : List (String × Option RunningAuction)) (c : String)
    (v : Option RunningAuction) : List (String × Option RunningAuction) :=
  l.map (fun p => (p.1, if p.1 = c then v else p.2))

/-- `auction.bids.add(bid)`: set insertion (no-op when the identical bid
is already present). -/
def addBid (bids : List Bid) (b : Bid) : List Bid :=
  if b ∈ bids then bids else bids ++ [b]

/-- A fresh `RunningAuction(item=item)` created at time `now`. -/
def newAuction (item : AuctionItem) (now : Int) : RunningAuction :=
  { item := item, started_at := now }

/-- `Auctioneer.bid`: the two guard layers (`check_auction_channels`,
then `check_auction_status` excluding Finished and Stopped), then
validation, then recording the bid and stamping `last_bid`. -/
def Auctioneer.bid (s : Auctioneer) (channel bidder : String)
    (bid_amount bid_id : Int) (rank : BidderRank) (now : Int) :
    Auctioneer × List AuctionMessage :=
  match lookupCh s.channels channel with
  | none =>
    (s, [⟨channel, .text "This isn't an auction channel. Try Again.", true⟩])
  | some none =>
    (s, [⟨channel, .text "There isn't an active auction in this channel.",
          true⟩])
  | some (some a) =>
    if a.status = Status.Finished then
      (s, [⟨channel, .text ("This auction has already closed and is waiting " ++
            "on and officer to accept the results."), true⟩])
    else if a.status = Status.Stopped then
      (s, [⟨channel, .text ("This auction has been stopped and is not " ++
            "accepting bids at the moment."), true⟩])
    else
      let v := validate_bid bidder bid_amount a.bids s.dkp
        s.limits.valuable s.limits.minimum s.limits.maximum
      if v.1 = false then
        (s, [⟨channel, .text v.2, true⟩])
      else
        let b : Bid := ⟨bidder, rank, bid_amount, bid_id⟩
        let a' := { a with bids := addBid a.bids b, last_bid := some now }
        ({ s with channels := setCh s.channels channel (some a') },
         [⟨channel, .text "Bid Accepted!", true⟩,
          ⟨channel, .bidAnnounce bidder bid_amount, false⟩])

/-- `Auctioneer.stop`: guards (Finished and Stopped excluded), then
Status → Stopped. -/
def Auctioneer.stop (s : Auctioneer) (channel : String) :
    Auctioneer × List AuctionMessage :=
  match lookupCh s.channels channel with
  | none =>
    (s, [⟨channel, .text "This isn't an auction channel. Try Again.", true⟩])
  | some none =>
    (s, [⟨channel, .text "There isn't an active auction in this channel.",
          true⟩])
  | some (some a) =>
    if a.status = Status.Finished then
      (s, [⟨channel, .text "This auction has finished already and cannot be stopped.",
            true⟩])
    else if a.status = Status.Stopped then
      (s, [⟨channel, .text "This auction is already stopped.", true⟩])
    else
      let a' := { a with status := Status.Stopped }
      ({ s with channels := setCh s.channels channel (some a') },
       [⟨channel, .text "Auction has been stopped", true⟩,
        ⟨channel, .stoppedItem a.item, false⟩])

/-- `Auctioneer.accept`: guards (Running and Stopped excluded), then
recompute the results; without `force`, refuse when they differ from the
cached results.  Never mutates any state. -/
def Auctioneer.accept (s : Auctioneer) (channel : String) (force : Bool) :
    Auctioneer × List AuctionMessage :=
  match lookupCh s.channels channel with
  | none =>
    (s, [⟨channel, .text "This isn't an auction channel. Try Again.", true⟩])
  | some none =>
    (s, [⟨channel, .text "There isn't an active auction in this channel.",
          true⟩])
  | some (some a) =>
    if a.status = Status.Running then
      (s, [⟨channel, .text "This auction has not finished and cannot be accepted yet.",
            true⟩])
    else if a.status = Status.Stopped then
      (s, [⟨channel, .text "This auction has not finished and cannot be accepted yet.",
            true⟩])
    else
      let results := determine_results a s.dkp s.limits.member
      if force = false ∧ a.results ≠ some results then
        (s, [⟨channel, .text ("This auction has not been accepted because " ++
              "the results have changed since it closed."), true⟩])
      else
        (s, [⟨channel, .text "Auction Accepted", true⟩,
             ⟨channel, .acceptedResults results, false⟩])

/-- `Auctioneer.reopen`: guard (Running excluded), then clear the cached
results, reset the start time, clear both event timestamps and return to
Running, keeping the bids. -/
def Auctioneer.reopen (s : Auctioneer) (channel : String) (now : Int) :
    Auctioneer × List AuctionMessage :=
  match lookupCh s.channels channel with
  | none =>
    (s, [⟨channel, .text "This isn't an auction channel. Try Again.", true⟩])
  | some none =>
    (s, [⟨channel, .text "There isn't an active auction in this channel.",
          true⟩])
  | some (some a) =>
    if a.status = Status.Running then
      (s, [⟨channel, .text "This auction has not finished and cannot be reopened yet.",
            true⟩])
    else
      let a' := { a with results := none, started_at := now,
                         last_updated := none, last_bid := none,
                         status := Status.Running }
      ({ s with channels := setCh s.channels channel (some a') },
       [⟨channel, .text "Reopening Bidding", true⟩,
        ⟨channel, .reopening a.item (time_left a' now), false⟩])

/-- `Auctioneer.restart`: channel guard only; replace the slot with a
fresh `RunningAuction` for the same item. -/
def Auctioneer.restart (s : Auctioneer) (channel : String) (now : Int) :
    Auctioneer × List AuctionMessage :=
  match lookupCh s.channels channel with
  | none =>
    (s, [⟨channel, .text "This isn't an auction channel. Try Again.", true⟩])
  | some none =>
    (s, [⟨channel, .text "There isn't an active auction in this channel.",
          true⟩])
  | some (some a) =>
    let a' := newAuction a.item now
    ({ s with channels := setCh s.channels channel (some a') },
     [⟨channel, .text "Restarted Auction", true⟩,
      ⟨channel, .restarting a.item (time_left a' now), false⟩])

/-- `Auctioneer.delete`: channel guard only; clear the channel slot. -/
def Auctioneer.delete (s : Auctioneer) (channel : String) :
    Auctioneer × List AuctionMessage :=
  match lookupCh s.channels channel with
  | none =>
    (s, [⟨channel, .text "This isn't an auction channel. Try Again.", true⟩])
  | some none =>
    (s, [⟨channel, .text "There isn't an active auction in this channel.",
          true⟩])
  | some (some a) =>
    ({ s with channels := setCh s.channels channel none },
     [⟨channel, .text "Auction Deleted", true⟩,
      ⟨channel, .deletedItem a.item, false⟩])

/-- One channel's share of `Auctioneer.run`: close the auction when its
time is up and it is still Running (caching the results), then post a
progress update when `needs_update` holds. -/
def runChannel (limits : Limits) (dkp : String → Int) (now : Int) :
    Option RunningAuction → Option RunningAuction × List MsgBody
  | none => (none, [])
  | some a =>
    let step1 : RunningAuction × List MsgBody :=
      if time_left a now = 0 ∧ a.status = Status.Running then
        let res := determine_results a dkp limits.member
        ({ a with status := Status.Finished, results := some res },
         [.auctionClosed res])
      else
        (a, [])
    let a1 := step1.1
    let step2 : RunningAuction × List MsgBody :=
      if needs_update a1 now then
        let a2 := { a1 with last_updated := some now }
        (a2, [.auctionUpdate a2.item (time_left a2 now)
               (determine_results a2 dkp limits.member)])
      else
        (a1, [])
    (some step2.1, step1.2 ++ step2.2)

/-- The channel map after one tick: every slot stepped by `runChannel`. -/
def runChans (limits : Limits) (dkp : String → Int) (now : Int)
    (chs : List (String × Option RunningAuction)) :
    List (String × Option RunningAuction) :=
  chs.map (fun p => (p.1, (runChannel limits dkp now p.2).1))

/-- The messages emitted by one tick, each tagged with its channel (all
public). -/
def runMsgs (limits : Limits) (dkp : String → Int) (now : Int)
    (chs : List (String × Option RunningAuction)) : List AuctionMessage :=
  (chs.map (fun p => (runChannel limits dkp now p.2).2.map
    (fun m => ({ channel := p.1, message := m } : AuctionMessage)))).flatten

/-- `Auctioneer.run` (the tick): apply `runChannel` to every channel in
order, tagging each emitted body with its channel (all public). -/
def Auctioneer.run (s : Auctioneer) (now : Int) :
    Auctioneer × List AuctionMessage :=
  ({ s with channels := runChans s.limits s.dkp now s.channels },
   runMsgs s.limits s.dkp now s.channels)

/-- The `while` loop of `Auctioneer.next`, structurally recursive on the
backlog: as long as items are pending and some channel is empty, pop the
oldest item and start it in a channel chosen from the empty ones by the
selector `sel` (modelling `random.choice`). -/
def nextLoop (sel : List String → Nat) (now : Int) :
    List AuctionItem → List (String × Option RunningAuction) →
    List AuctionItem × List (String × Option RunningAuction) ×
      List AuctionMessage
  | [], chs => ([], chs, [])
  | item :: rest, chs =>
    match (chs.filter (fun p => p.2 = none)).map Prod.fst with
    | [] => (item :: rest, chs, [])
    | e :: es =>
      let empties := e :: es
      let c := empties.get ⟨sel empties % empties.length,
        Nat.mod_lt _ (Nat.succ_pos es.length)⟩
      let a := newAuction item now
      let r := nextLoop sel now rest (setCh chs c (some a))
      (r.1, r.2.1,
       ⟨c, .startingBid item (time_left a now), false⟩ :: r.2.2)

/-- `Auctioneer.next`: run the backlog-assignment loop. -/
def Auctioneer.next (s : Auctioneer) (sel : List String → Nat) (now : Int) :
    Auctioneer × List AuctionMessage :=
  let r := nextLoop sel now s.pending_items s.channels
  ({ s with pending_items := r.1, channels := r.2.1 }, r.2.2)

/-- `Auctioneer.add`: enqueue a pending item. -/
def Auctioneer.add (s : Auctioneer) (item : AuctionItem) : Auctioneer :=
  { s with pending_items := s.pending_items ++ [item] }

/-- `Auctioneer.update_dkp`: replace the balance snapshot. -/
def Auctioneer.update_dkp (s : Auctioneer) (d : String → Int) : Auctioneer :=
  { s with dkp := d }

/-- One external operation on the Auctioneer, with every clock reading and
random choice made explicit. -/
inductive Op where
  | bid (channel bidder : String) (amount id : Int) (rank : BidderRank)
      (now : Int)
  | stop (channel : String)
  | accept (channel : String) (force : Bool)
  | reopen (channel : String) (now : Int)
  | restart (channel : String) (now : Int)
  | delete (channel : String)
  | advance (now : Int)
  | next (sel : List String → Nat) (now : Int)
  | add (item : AuctionItem)
  | updateDkp (d : String → Int)

/-- Apply one operation, returning the new state and emitted messages. -/
def applyOp (s : Auctioneer) : Op → Auctioneer × List AuctionMessage
  | .bid c b amt i r now => s.bid c b amt i r now
  | .stop c => s.stop c
  | .accept c force => s.accept c force
  | .reopen c now => s.reopen c now
  | .restart c now => s.restart c now
  | .delete c => s.delete c
  | .advance now => s.run now
  | .next sel now => s.next sel now
  | .add item => (s.add item, [])
  | .updateDkp d => (s.update_dkp d, [])

/-- A fresh `Auctioneer` as built by `__init__`: empty backlog, all
channel slots empty, empty balance snapshot. -/
def initAuctioneer (channels : List String) (limits : Limits) : Auctioneer :=
  { pending_items := [], channels := channels.map (fun c => (c, none)),
    limits := limits, dkp := fun _ => 0 }

/-- States reachable from a fresh `Auctioneer` by any sequence of
operations. -/
inductive Reachable : Auctioneer → Prop where
  | init (channels : List String) (limits : Limits) :
      Reachable (initAuctioneer channels limits)
  | step (s : Auctioneer) (op : Op) : Reachable s → Reachable (applyOp s op).1

/-- A flat balance snapshot giving every bidder 200 points. -/
def dkp200 : String → Int := fun _ => 200

/-- Scenario A auction: one item, two equal top bids from two Raiders. -/
def auctionA : RunningAuction :=
  { item := ⟨"Sword", 1, "officer"⟩, started_at := 0,
    bids := [⟨"alice", .Raider, 100, 0⟩, ⟨"bob", .Raider, 100, 0⟩] }

/-- Scenario B auction: three items, bids 100, 90, 80, 80. -/
def auctionB : RunningAuction :=
  { item := ⟨"Shield", 3, "officer"⟩, started_at := 0,
    bids := [⟨"a", .Member, 100, 0⟩, ⟨"b", .Member, 90, 0⟩,
             ⟨"c", .Member, 80, 0⟩, ⟨"d", .Member, 80, 0⟩] }

/-- Wide-open limits used in concrete runs: member threshold 0, valuable
threshold 1000, minimum 0, maximum 10000. -/
def limitsOpen : Limits := ⟨0, 1000, 0, 10000⟩

/-- A fresh quantity-1 Ring auction started at time 0. -/
def auctionRing : RunningAuction :=
  { item := ⟨"Ring", 1, "officer"⟩, started_at := 0 }

/-- A one-channel Auctioneer holding a fresh quantity-1 auction, used for
concrete runs through the engine operations. -/
def auctioneerRing : Auctioneer :=
  { pending_items := [],
    channels := [("ch", some auctionRing)],
    limits := limitsOpen, dkp := dkp200 }

/-- The cached-results invariant over a channel map: every held auction
has non-null `results` exactly when its status is Finished. -/
def ChanInv (chs : List (String × Option RunningAuction)) : Prop :=
  ∀ c a, lookupCh chs c = some (some a) →
    (a.results.isSome = true ↔ a.status = Status.Finished)

/-- A Finished quantity-1 auction with no bids whose cached results match
a fresh recomputation (`allocGroups [] 1 = ([], [], 1)`). -/
def auctionDone : RunningAuction :=
  { item := ⟨"Ring", 1, "officer"⟩, started_at := 0,
    status := .Finished, results := some ⟨[], [], 1⟩ }

/-- A one-channel Auctioneer holding `auctionDone`. -/
def auctioneerDone : Auctioneer :=
  { pending_items := [], channels := [("ch", some auctionDone)],
    limits := limitsOpen, dkp := dkp200 }

/-- A one-channel Auctioneer whose auction has been stopped. -/
def auctioneerStopped : Auctioneer :=
  { pending_items := [],
    channels := [("ch", some { item := ⟨"Ring", 1, "officer"⟩,
                               started_at := 0, status := .Stopped })],
    limits := limitsOpen, dkp := dkp200 }

/-- A bare Running auction started at time 0 with no bids or updates. -/
def auction30 : RunningAuction :=
  { item := ⟨"Gem", 1, "officer"⟩, started_at := 0 }

/-- A Running auction that has had its final update at time 100, so its
closing time (115) is fully determined. -/
def auctionUpd : RunningAuction :=
  { item := ⟨"Gem", 1, "officer"⟩, started_at := 0, last_updated := some 100 }

/-- A one-channel Auctioneer holding `auctionUpd`, ready to be closed by
a tick at time 115. -/
def auctioneerTick : Auctioneer :=
  { pending_items := [], channels := [("ch", some auctionUpd)],
    limits := limitsOpen, dkp := dkp200 }

/-- The Ring auction after the same bidder bid 100 and then 50 under the
same bid id (both accepted; both stay in the live set). -/
def auctionTwoBids : RunningAuction :=
  { item := ⟨"Ring", 1, "officer"⟩, started_at := 0, last_bid := some 6,
    bids := [⟨"a", .Member, 100, 0⟩, ⟨"a", .Member, 50, 0⟩] }

/-!  ## Theorems  -/

theorem allocGroups_winners_add_rolled :
    ∀ (gs : List (List Bid)) (need : Int),
      ((allocGroups gs need).1.length : Int) + (allocGroups gs need).2.2 =
        need := by
  intro gs
  induction gs with
  | nil => intro need; simp [allocGroups]
  | cons g gs ih =>
    intro need
    simp only [allocGroups]
    split_ifs with h1 h2
    · simp only [List.length_nil]
      omega
    · have := ih (need - g.length)
      simp only [List.length_append]
      push_cast at *
      omega
    · simp

theorem allocGroups_tied_large :
    ∀ (gs : List (List Bid)) (need : Int),
      (allocGroups gs need).2.1 ≠ [] →
        (allocGroups gs need).2.2 < ((allocGroups gs need).2.1.length : Int) := by
  intro gs
  induction gs with
  | nil => intro need h; simp [allocGroups] at h
  | cons g gs ih =>
    intro need h
    simp only [allocGroups] at *
    split_ifs at * with h1 h2
    · simp at h
    · exact ih (need - g.length) h
    · dsimp only
      omega

/-- C1 (counterexample): on Scenario B — quantity 3, bids 100, 90, 80, 80,
ample balances — the code produces winners {100, 90} and tied {80, 80} as
the claim says, but `rolled = 1`, not the claimed 0: the `if need:` after
the loop also fires when a tie stopped allocation early. -/
theorem determine_results_rolled_counterexample :
    (determine_results auctionB dkp200 0).winners =
        [⟨"a", .Member, 100, 0⟩, ⟨"b", .Member, 90, 0⟩] ∧
      (determine_results auctionB dkp200 0).tied =
        [⟨"c", .Member, 80, 0⟩, ⟨"d", .Member, 80, 0⟩] ∧
      ¬(determine_results auctionB dkp200 0).rolled = 0 := by
  refine ⟨rfl, rfl, by decide⟩

/-- C1 (amended): groups are awarded whole while they fit the remaining
need and the first too-large group is tied in its entirety, with `rolled`
ending up equal to the remaining need — so `winners.length + rolled`
always equals the item quantity and a non-empty tied group is strictly
larger than `rolled`; in Scenario A the result is tied = both bids,
winners empty, rolled = 1, and in Scenario B winners = {100, 90},
tied = {80, 80}, rolled = 1. -/
theorem determine_results_allocation :
    (∀ (a : RunningAuction) (dkp : String → Int) (mt : Int),
      ((determine_results a dkp mt).winners.length : Int) +
          (determine_results a dkp mt).rolled = a.item.quantity ∧
        ((determine_results a dkp mt).tied ≠ [] →
          (determine_results a dkp mt).rolled <
            ((determine_results a dkp mt).tied.length : Int))) ∧
      determine_results auctionA dkp200 50 =
        { winners := [],
          tied := [⟨"alice", .Raider, 100, 0⟩, ⟨"bob", .Raider, 100, 0⟩],
          rolled := 1 } ∧
      determine_results auctionB dkp200 0 =
        { winners := [⟨"a", .Member, 100, 0⟩, ⟨"b", .Member, 90, 0⟩],
          tied := [⟨"c", .Member, 80, 0⟩, ⟨"d", .Member, 80, 0⟩],
          rolled := 1 } := by
  refine ⟨fun a dkp mt => ⟨?_, ?_⟩, by decide, by decide⟩
  · simpa only [determine_results] using
      allocGroups_winners_add_rolled
        (groupRuns (bid_key dkp mt) (filter_bids (sortBids dkp mt a.bids)))
        a.item.quantity
  · simpa only [determine_results] using
      allocGroups_tied_large
        (groupRuns (bid_key dkp mt) (filter_bids (sortBids dkp mt a.bids)))
        a.item.quantity

/-- C1 (witness): the amended allocation facts evaluated on Scenario A. -/
theorem determine_results_allocation_witness :
    ((determine_results auctionA dkp200 50).winners.length : Int) +
        (determine_results auctionA dkp200 50).rolled =
          auctionA.item.quantity ∧
      (determine_results auctionA dkp200 50).rolled <
        ((determine_results auctionA dkp200 50).tied.length : Int) :=
  ⟨(determine_results_allocation.1 auctionA dkp200 50).1,
   (determine_results_allocation.1 auctionA dkp200 50).2 (by decide)⟩

/-- C3: the validator checks its rules in order with short-circuiting —
above-maximum, below-minimum, then the all-in / echo waiver of the
granularity rule, then the increments-of-5 rule for valuable bids, and
finally the balance check; an amount passing every check is accepted. -/
theorem validate_bid_rules (bidder : String) (amount : Int) (bids : List Bid)
    (dkp : String → Int) (vt mn mx : Int) :
    (amount > mx →
      validate_bid bidder amount bids dkp vt mn mx =
        (false, "Error: Invalid Bid (bids above " ++ toString mx ++
          " are not allowed).")) ∧
    (amount ≤ mx → amount < mn →
      validate_bid bidder amount bids dkp vt mn mx =
        (false, "Error: Invalid bid (bids below " ++ toString mn ++
          " are not allowed).")) ∧
    (amount ≤ mx → mn ≤ amount →
      (dkp bidder = amount ∨ ∃ b ∈ bids, b.bid = amount) →
      validate_bid bidder amount bids dkp vt mn mx =
        if amount > dkp bidder then
          (false, "Error: Invalid Bid (not enough dkp).")
        else
          (true, "")) ∧
    (amount ≤ mx → mn ≤ amount → dkp bidder ≠ amount →
      (∀ b ∈ bids, b.bid ≠ amount) → amount ≥ vt → amount % 5 ≠ 0 →
      validate_bid bidder amount bids dkp vt mn mx =
        (false, "Error: Invalid Bid (bids above " ++ toString vt ++
          " must be in increments of 5).")) ∧
    (amount ≤ mx → mn ≤ amount → dkp bidder ≠ amount →
      (∀ b ∈ bids, b.bid ≠ amount) → ¬(amount ≥ vt ∧ amount % 5 ≠ 0) →
      validate_bid bidder amount bids dkp vt mn mx =
        if amount > dkp bidder then
          (false, "Error: Invalid Bid (not enough dkp).")
        else
          (true, "")) := by
  refine ⟨?_, ?_, ?_, ?_, ?_⟩
  · intro h
    simp only [validate_bid]
    rw [if_pos h]
  · intro h1 h2
    have hx : ¬amount > mx := by omega
    simp only [validate_bid]
    rw [if_neg hx, if_pos h2]
  · intro h1 h2 h3
    have hx : ¬amount > mx := by omega
    have hn : ¬amount < mn := by omega
    rcases h3 with h3 | ⟨b, hb, hbid⟩
    · simp only [validate_bid]
      rw [if_neg hx, if_neg hn, if_pos h3]
    · by_cases hc : dkp bidder = amount
      · simp only [validate_bid]
        rw [if_neg hx, if_neg hn, if_pos hc]
      · have hany : (bids.any fun b => decide (b.bid = amount)) = true := by
          simp only [List.any_eq_true, decide_eq_true_eq]
          exact ⟨b, hb, hbid⟩
        simp only [validate_bid]
        rw [if_neg hx, if_neg hn, if_neg hc, if_pos hany]
  · intro h1 h2 hc hm hv h5
    have hx : ¬amount > mx := by omega
    have hn : ¬amount < mn := by omega
    have hany : ¬(bids.any fun b => decide (b.bid = amount)) = true := by
      simp only [List.any_eq_true, decide_eq_true_eq, not_exists]
      intro b hb
      exact hm b hb.1 hb.2
    simp only [validate_bid]
    rw [if_neg hx, if_neg hn, if_neg hc, if_neg hany, if_pos ⟨hv, h5⟩]
  · intro h1 h2 hc hm hg
    have hx : ¬amount > mx := by omega
    have hn : ¬amount < mn := by omega
    have hany : ¬(bids.any fun b => decide (b.bid = amount)) = true := by
      simp only [List.any_eq_true, decide_eq_true_eq, not_exists]
      intro b hb
      exact hm b hb.1 hb.2
    simp only [validate_bid]
    rw [if_neg hx, if_neg hn, if_neg hc, if_neg hany, if_neg hg]

/-- C3 (witness): a bid of 7 against threshold 5 with balance 200 is
rejected for granularity, evaluated through the theorem. -/
theorem validate_bid_rules_witness :
    validate_bid "a" 7 [] dkp200 5 0 100 =
      (false, "Error: Invalid Bid (bids above " ++ toString (5 : Int) ++
        " must be in increments of 5).") :=
  (validate_bid_rules "a" 7 [] dkp200 5 0 100).2.2.2.1 (by decide) (by decide)
    (by decide) (by simp) (by decide) (by decide)

/-- C4: with the auction's timestamps held fixed, `time_left` is
non-negative at every instant and monotonically non-increasing in the
current time. -/
theorem time_left_nonneg_monotone (a : RunningAuction) :
    (∀ now : Int, 0 ≤ time_left a now) ∧
      (∀ now1 now2 : Int, now1 ≤ now2 → time_left a now2 ≤ time_left a now1) := by
  constructor
  · intro now
    unfold time_left
    rcases a.last_bid with _ | lb <;> rcases a.last_updated with _ | lu <;>
      dsimp only <;> split_ifs <;> omega
  · intro now1 now2 h
    unfold time_left
    rcases a.last_bid with _ | lb <;> rcases a.last_updated with _ | lu <;>
      dsimp only <;> split_ifs <;> omega

/-- C4 (witness): both facts evaluated on the bare Gem auction at
concrete times. -/
theorem time_left_nonneg_monotone_witness :
    0 ≤ time_left auction30 40 ∧ time_left auction30 40 ≤ time_left auction30 10 :=
  ⟨(time_left_nonneg_monotone auction30).1 40,
   (time_left_nonneg_monotone auction30).2 10 40 (by decide)⟩

/-- C9 (counterexample): thirty seconds exactly after the start of a bare
Running auction all three of the claim's conditions hold (started ≥ 30s
ago, no bid, no update) and the status is Running, yet `needs_update` is
false — the source compares with strict `>`, not `≥`. -/
theorem needs_update_boundary_counterexample :
    auction30.status = Status.Running ∧ 30 - auction30.started_at ≥ 30 ∧
      auction30.last_bid = none ∧ auction30.last_updated = none ∧
      needs_update auction30 30 = false := by
  decide

/-- C9 (amended): `needs_update` is true exactly when the auction is
Running, it started strictly more than 30 seconds ago, the last bid (if
any) was strictly more than 10 seconds ago, and the last update (if any)
was strictly more than 30 seconds ago; for a Stopped or Finished auction
it is false regardless of the timestamps. -/
theorem needs_update_characterization (a : RunningAuction) (now : Int) :
    needs_update a now = true ↔
      a.status = Status.Running ∧ 30 < now - a.started_at ∧
        (∀ lb, a.last_bid = some lb → 10 < now - lb) ∧
        (∀ lu, a.last_updated = some lu → 30 < now - lu) := by
  unfold needs_update
  rcases hs : a.status <;>
    rcases hlb : a.last_bid with _ | lb <;>
    rcases hlu : a.last_updated with _ | lu <;>
    simp <;> omega

/-- C9 (witness): the characterization evaluated one second past the
boundary. -/
theorem needs_update_characterization_witness :
    needs_update auction30 31 = true :=
  (needs_update_characterization auction30 31).mpr
    ⟨rfl, by decide, by simp [auction30], by simp [auction30]⟩

theorem KeyLE_refl (k : Int × Int × Int) : KeyLE k k := by
  obtain ⟨a, b, c⟩ := k
  unfold KeyLE
  dsimp only
  omega

theorem filter_bids_aux_spec (dkp : String → Int) (mt : Int) :
    ∀ (l : List Bid) (seen : List (String × Int)) (b : Bid),
      l.Pairwise (BidDesc dkp mt) → b ∈ filter_bids_aux seen l →
      (b.bidder, b.id) ∉ seen ∧
        ∀ b' ∈ l, b'.bidder = b.bidder → b'.id = b.id →
          KeyLE (bid_key dkp mt b') (bid_key dkp mt b) := by
  intro l
  induction l with
  | nil =>
    intro seen b _ hb
    simp [filter_bids_aux] at hb
  | cons x xs ih =>
    intro seen b hp hb
    rw [List.pairwise_cons] at hp
    obtain ⟨hx, hxs⟩ := hp
    simp only [filter_bids_aux] at hb
    by_cases hseen : (x.bidder, x.id) ∈ seen
    · rw [if_pos hseen] at hb
      obtain ⟨hns, hmax⟩ := ih seen b hxs hb
      refine ⟨hns, ?_⟩
      intro b' hb' heq1 heq2
      rcases List.mem_cons.mp hb' with rfl | hb2
      · rw [heq1, heq2] at hseen
        exact absurd hseen hns
      · exact hmax b' hb2 heq1 heq2
    · rw [if_neg hseen] at hb
      rcases List.mem_cons.mp hb with rfl | hb2
      · refine ⟨hseen, ?_⟩
        intro b' hb' _ _
        rcases List.mem_cons.mp hb' with rfl | hb2
        · exact KeyLE_refl _
        · exact hx b' hb2
      · obtain ⟨hns, hmax⟩ := ih _ b hxs hb2
        refine ⟨fun hmem => hns (List.mem_cons_of_mem _ hmem), ?_⟩
        intro b' hb' heq1 heq2
        rcases List.mem_cons.mp hb' with rfl | hb3
        · exfalso
          apply hns
          rw [← heq1, ← heq2]
          exact List.mem_cons_self _ _
        · exact hmax b' hb3 heq1 heq2

theorem groupRunsAux_flatten (key : Bid → Int × Int × Int) :
    ∀ (l : List Bid) (x : Bid),
      (groupRunsAux key x l).1 ++ (groupRunsAux key x l).2.flatten = x :: l := by
  intro l
  induction l with
  | nil => intro x; simp [groupRunsAux]
  | cons y ys ih =>
    intro x
    simp only [groupRunsAux]
    split_ifs with h
    · dsimp only
      rw [List.cons_append, ih y]
    · dsimp only
      rw [List.flatten_cons, List.singleton_append, ih y]

theorem groupRuns_flatten (key : Bid → Int × Int × Int) (l : List Bid) :
    (groupRuns key l).flatten = l := by
  cases l with
  | nil => rfl
  | cons x xs =>
    simp only [groupRuns, List.flatten_cons]
    exact groupRunsAux_flatten key xs x

theorem allocGroups_sub :
    ∀ (gs : List (List Bid)) (need : Int) (b : Bid),
      b ∈ (allocGroups gs need).1 ∨ b ∈ (allocGroups gs need).2.1 →
        b ∈ gs.flatten := by
  intro gs
  induction gs with
  | nil =>
    intro need b h
    simp [allocGroups] at h
  | cons g gs ih =>
    intro need b h
    simp only [allocGroups] at h
    rw [List.flatten_cons]
    split_ifs at h with h1 h2
    · dsimp only at h
      rcases h with h | h
      · exact List.mem_append_left _ h
      · simp at h
    · dsimp only at h
      rcases h with h | h
      · rcases List.mem_append.mp h with h | h
        · exact List.mem_append_left _ h
        · exact List.mem_append_right _ (ih _ b (Or.inl h))
      · exact List.mem_append_right _ (ih _ b (Or.inr h))
    · dsimp only at h
      rcases h with h | h
      · simp at h
      · exact List.mem_append_left _ h

/-- C2 (counterexample): on a quantity-1 auction, bidder "a" bids 100
under id 0 and then successfully updates to 50 under the same id; both
calls are accepted, both bids remain live, and `determine_results` counts
the earlier 100 — the earlier amount appears in winners, contradicting
"only the most recently submitted amount is counted". -/
theorem duplicate_bid_latest_counterexample :
    (auctioneerRing.bid "ch" "a" 100 0 BidderRank.Member 5).2 =
        [⟨"ch", .text "Bid Accepted!", true⟩,
         ⟨"ch", .bidAnnounce "a" 100, false⟩] ∧
      ((auctioneerRing.bid "ch" "a" 100 0 BidderRank.Member 5).1.bid
          "ch" "a" 50 0 BidderRank.Member 6).2 =
        [⟨"ch", .text "Bid Accepted!", true⟩,
         ⟨"ch", .bidAnnounce "a" 50, false⟩] ∧
      ((auctioneerRing.bid "ch" "a" 100 0 BidderRank.Member 5).1.bid
          "ch" "a" 50 0 BidderRank.Member 6).1.channels =
        [("ch", some auctionTwoBids)] ∧
      (determine_results auctionTwoBids dkp200 0).winners =
        [⟨"a", BidderRank.Member, 100, 0⟩] := by
  refine ⟨?_, ?_, ?_, ?_⟩ <;> decide

/-- C2 (amended): for each `(bidder, id)` pair the de-duplication keeps
the live bid that sorts highest under the composite key (for a fixed
bidder the one with the greatest amount at its priority tier), not the
latest-submitted one: any bid appearing in winners or tied has a
composite key at least as large as every live bid sharing its
`(bidder, id)`, so a later lower update does not displace an earlier
higher bid. -/
theorem counted_bid_key_maximal (a : RunningAuction) (dkp : String → Int)
    (mt : Int) (b b' : Bid)
    (hb : b ∈ (determine_results a dkp mt).winners ∨
          b ∈ (determine_results a dkp mt).tied)
    (hb' : b' ∈ a.bids) (hbidder : b'.bidder = b.bidder)
    (hid : b'.id = b.id) :
    KeyLE (bid_key dkp mt b') (bid_key dkp mt b) := by
  simp only [determine_results] at hb
  have hfil : b ∈ filter_bids (sortBids dkp mt a.bids) := by
    have h1 := allocGroups_sub
      (groupRuns (bid_key dkp mt) (filter_bids (sortBids dkp mt a.bids)))
      a.item.quantity b hb
    rwa [groupRuns_flatten] at h1
  have hsorted : (sortBids dkp mt a.bids).Pairwise (BidDesc dkp mt) :=
    List.sorted_insertionSort _ _
  obtain ⟨_, hmax⟩ :=
    filter_bids_aux_spec dkp mt (sortBids dkp mt a.bids) [] b hsorted hfil
  exact hmax b' ((List.perm_insertionSort _ _).mem_iff.mpr hb') hbidder hid

/-- C2 (witness): the maximality fact evaluated on the two-bid Ring
auction — the later 50 has a key no larger than the counted 100. -/
theorem counted_bid_key_maximal_witness :
    KeyLE (bid_key dkp200 0 ⟨"a", BidderRank.Member, 50, 0⟩)
      (bid_key dkp200 0 ⟨"a", BidderRank.Member, 100, 0⟩) :=
  counted_bid_key_maximal auctionTwoBids dkp200 0
    ⟨"a", BidderRank.Member, 100, 0⟩ ⟨"a", BidderRank.Member, 50, 0⟩
    (Or.inl (by decide)) (by decide) rfl rfl

/-- C6: on a Finished auction, `accept` refuses with a single hidden
notice exactly when not forced and the recomputed results differ from the
cached ones, and otherwise acknowledges; in both cases the returned state
is the input state, completely unchanged. -/
theorem accept_finished_no_mutation (s : Auctioneer) (c : String)
    (a : RunningAuction) (force : Bool)
    (h : lookupCh s.channels c = some (some a))
    (hf : a.status = Status.Finished) :
    s.accept c force =
      (s,
       if force = false ∧
           a.results ≠ some (determine_results a s.dkp s.limits.member) then
         [⟨c, .text ("This auction has not been accepted because " ++
             "the results have changed since it closed."), true⟩]
       else
         [⟨c, .text "Auction Accepted", true⟩,
          ⟨c, .acceptedResults (determine_results a s.dkp s.limits.member),
            false⟩]) := by
  have h1 : ¬a.status = Status.Running := by rw [hf]; decide
  have h2 : ¬a.status = Status.Stopped := by rw [hf]; decide
  simp only [Auctioneer.accept, h]
  rw [if_neg h1, if_neg h2]
  split_ifs <;> rfl

/-- C6 (witness): accepting the Finished Ring auction whose cached
results still match emits the two acknowledgement messages and leaves the
Auctioneer untouched. -/
theorem accept_finished_no_mutation_witness :
    auctioneerDone.accept "ch" false =
      (auctioneerDone,
       [⟨"ch", .text "Auction Accepted", true⟩,
        ⟨"ch", .acceptedResults ⟨[], [], 1⟩, false⟩]) := by
  rw [accept_finished_no_mutation auctioneerDone "ch" auctionDone false rfl rfl]
  rfl

theorem runChannel_closes (limits : Limits) (dkp : String → Int) (now : Int)
    (a : RunningAuction) (ht : time_left a now = 0)
    (hr : a.status = Status.Running) :
    runChannel limits dkp now (some a) =
      (some { a with status := Status.Finished,
                     results := some (determine_results a dkp limits.member) },
       [.auctionClosed (determine_results a dkp limits.member)]) := by
  have hnu : needs_update
      { a with status := Status.Finished,
               results := some (determine_results a dkp limits.member) }
      now = false := by
    unfold needs_update
    simp
  simp only [runChannel]
  rw [if_pos (show time_left a now = 0 ∧ a.status = Status.Running from
    ⟨ht, hr⟩)]
  simp [hnu]

theorem runChannel_not_running (limits : Limits) (dkp : String → Int)
    (now : Int) (a : RunningAuction) (h : ¬a.status = Status.Running) :
    runChannel limits dkp now (some a) = (some a, []) := by
  have h1 : ¬(time_left a now = 0 ∧ a.status = Status.Running) :=
    fun hc => h hc.2
  have hnu : needs_update a now = false := by
    unfold needs_update
    rw [if_pos h]
  simp only [runChannel]
  rw [if_neg h1]
  simp [hnu]

theorem lookupCh_runChans (limits : Limits) (dkp : String → Int) (now : Int) :
    ∀ (chs : List (String × Option RunningAuction)) (c : String),
      lookupCh (runChans limits dkp now chs) c =
        (lookupCh chs c).map (fun v => (runChannel limits dkp now v).1) := by
  intro chs
  induction chs with
  | nil => intro c; simp [runChans, lookupCh]
  | cons p rest ih =>
    intro c
    obtain ⟨k, v⟩ := p
    simp only [runChans, List.map_cons, lookupCh] at *
    split_ifs with hk
    · rfl
    · exact ih c

theorem runChans_keys (limits : Limits) (dkp : String → Int) (now : Int)
    (chs : List (String × Option RunningAuction)) :
    (runChans limits dkp now chs).map Prod.fst = chs.map Prod.fst := by
  simp [runChans, List.map_map, Function.comp]

theorem runMsgs_filter_not_mem (limits : Limits) (dkp : String → Int)
    (now : Int) :
    ∀ (chs : List (String × Option RunningAuction)) (c : String),
      c ∉ chs.map Prod.fst →
      (runMsgs limits dkp now chs).filter (fun m => m.channel == c) = [] := by
  intro chs
  induction chs with
  | nil => intro c _; rfl
  | cons p rest ih =>
    intro c hc
    obtain ⟨k, v⟩ := p
    simp only [List.map_cons, List.mem_cons, not_or] at hc
    obtain ⟨hkc, hrest⟩ := hc
    have hfst : ((runChannel limits dkp now v).2.map
        (fun m => ({ channel := k, message := m } : AuctionMessage))).filter
          (fun m => m.channel == c) = [] := by
      rw [List.filter_eq_nil_iff]
      intro m hm
      rcases List.mem_map.mp hm with ⟨b, _, rfl⟩
      simp only [beq_iff_eq]
      simpa using fun hcon => hkc hcon.symm
    simp only [runMsgs] at ih ⊢
    simp only [List.map_cons, List.flatten_cons, List.filter_append]
    rw [ih c hrest, hfst]
    rfl

theorem runMsgs_filter_lookup (limits : Limits) (dkp : String → Int)
    (now : Int) :
    ∀ (chs : List (String × Option RunningAuction)) (c : String)
      (v : Option RunningAuction),
      (chs.map Prod.fst).Nodup → lookupCh chs c = some v →
      (runMsgs limits dkp now chs).filter (fun m => m.channel == c) =
        (runChannel limits dkp now v).2.map
          (fun m => ({ channel := c, message := m } : AuctionMessage)) := by
  intro chs
  induction chs with
  | nil => intro c v _ h; simp [lookupCh] at h
  | cons p rest ih =>
    intro c v hnd h
    obtain ⟨k, w⟩ := p
    simp only [List.map_cons, List.nodup_cons] at hnd
    obtain ⟨hk, hndr⟩ := hnd
    simp only [lookupCh] at h
    by_cases hkc : k = c
    · subst hkc
      rw [if_pos rfl] at h
      injection h with h
      subst h
      have hkeep : ((runChannel limits dkp now w).2.map
          (fun m => ({ channel := k, message := m } : AuctionMessage))).filter
            (fun m => m.channel == k) =
          (runChannel limits dkp now w).2.map
            (fun m => ({ channel := k, message := m } : AuctionMessage)) := by
        rw [List.filter_eq_self]
        intro m hm
        rcases List.mem_map.mp hm with ⟨b, _, rfl⟩
        simp
      have hrest := runMsgs_filter_not_mem limits dkp now rest k hk
      simp only [runMsgs] at hrest ⊢
      simp only [List.map_cons, List.flatten_cons, List.filter_append]
      rw [hrest, hkeep, List.append_nil]
    · rw [if_neg hkc] at h
      have hfst : ((runChannel limits dkp now w).2.map
          (fun m => ({ channel := k, message := m } : AuctionMessage))).filter
            (fun m => m.channel == c) = [] := by
        rw [List.filter_eq_nil_iff]
        intro m hm
        rcases List.mem_map.mp hm with ⟨b, _, rfl⟩
        simp only [beq_iff_eq]
        exact hkc
      have hih := ih c v hndr h
      simp only [runMsgs] at hih ⊢
      simp only [List.map_cons, List.flatten_cons, List.filter_append]
      rw [hfst, hih, List.nil_append]

/-- C5: one tick on a channel whose Running auction has no time left
marks it Finished with the resolver's output cached, emits exactly one
message for that channel — the public closing message — (in particular no
update message in the same tick), and a second tick at any later time
emits no message at all for that channel. -/
theorem advance_closes_once (s : Auctioneer) (now now2 : Int) (c : String)
    (a : RunningAuction)
    (hnd : (s.channels.map Prod.fst).Nodup)
    (h : lookupCh s.channels c = some (some a))
    (hr : a.status = Status.Running) (ht : time_left a now = 0) :
    lookupCh (s.run now).1.channels c =
        some (some { a with
                     status := Status.Finished,
                     results :=
                       some (determine_results a s.dkp s.limits.member) }) ∧
      (s.run now).2.filter (fun m => m.channel == c) =
        [⟨c, .auctionClosed (determine_results a s.dkp s.limits.member),
          false⟩] ∧
      ((s.run now).1.run now2).2.filter (fun m => m.channel == c) = [] := by
  have hclose := runChannel_closes s.limits s.dkp now a ht hr
  have hpart1 : lookupCh (s.run now).1.channels c =
      some (some { a with
                   status := Status.Finished,
                   results :=
                     some (determine_results a s.dkp s.limits.member) }) := by
    show lookupCh (runChans s.limits s.dkp now s.channels) c = _
    rw [lookupCh_runChans, h]
    simp [hclose]
  refine ⟨hpart1, ?_, ?_⟩
  · show (runMsgs s.limits s.dkp now s.channels).filter
      (fun m => m.channel == c) = _
    rw [runMsgs_filter_lookup s.limits s.dkp now s.channels c (some a) hnd h,
      hclose]
    rfl
  · have hnd2 : ((s.run now).1.channels.map Prod.fst).Nodup := by
      show ((runChans s.limits s.dkp now s.channels).map Prod.fst).Nodup
      rw [runChans_keys]
      exact hnd
    have hfin : ¬({ a with
                    status := Status.Finished,
                    results :=
                      some (determine_results a s.dkp s.limits.member) } :
          RunningAuction).status = Status.Running := by
      simp
    show (runMsgs s.limits s.dkp now2 (s.run now).1.channels).filter
      (fun m => m.channel == c) = _
    rw [runMsgs_filter_lookup s.limits s.dkp now2 (s.run now).1.channels c _
      hnd2 hpart1]
    rw [runChannel_not_running s.limits s.dkp now2 _ hfin]
    rfl

/-- C5 (witness): the closing behaviour evaluated on the concrete
one-channel Auctioneer ticked at times 115 and 120. -/
theorem advance_closes_once_witness :
    lookupCh (auctioneerTick.run 115).1.channels "ch" =
        some (some { auctionUpd with
                     status := Status.Finished,
                     results :=
                       some (determine_results auctionUpd auctioneerTick.dkp
                         auctioneerTick.limits.member) }) ∧
      (auctioneerTick.run 115).2.filter (fun m => m.channel == "ch") =
        [⟨"ch", .auctionClosed (determine_results auctionUpd
          auctioneerTick.dkp auctioneerTick.limits.member), false⟩] ∧
      ((auctioneerTick.run 115).1.run 120).2.filter
        (fun m => m.channel == "ch") = [] :=
  advance_closes_once auctioneerTick 115 120 "ch" auctionUpd (by decide)
    rfl rfl (by decide)

/-- C10: every structural rejection (unknown channel, or empty channel
slot) and every state rejection (status in the operation's forbidden set)
returns the Auctioneer state exactly unchanged together with a single
hidden message; in particular `bid` on a Stopped auction. -/
theorem guard_rejections (s : Auctioneer) (c bidder : String)
    (amt i now : Int) (rank : BidderRank) (force : Bool) :
    (lookupCh s.channels c = none →
      s.bid c bidder amt i rank now =
          (s, [⟨c, .text "This isn't an auction channel. Try Again.",
                true⟩]) ∧
        s.stop c =
          (s, [⟨c, .text "This isn't an auction channel. Try Again.",
                true⟩]) ∧
        s.accept c force =
          (s, [⟨c, .text "This isn't an auction channel. Try Again.",
                true⟩]) ∧
        s.reopen c now =
          (s, [⟨c, .text "This isn't an auction channel. Try Again.",
                true⟩]) ∧
        s.restart c now =
          (s, [⟨c, .text "This isn't an auction channel. Try Again.",
                true⟩]) ∧
        s.delete c =
          (s, [⟨c, .text "This isn't an auction channel. Try Again.",
                true⟩])) ∧
      (lookupCh s.channels c = some none →
        s.bid c bidder amt i rank now =
            (s, [⟨c, .text "There isn't an active auction in this channel.",
                  true⟩]) ∧
          s.stop c =
            (s, [⟨c, .text "There isn't an active auction in this channel.",
                  true⟩]) ∧
          s.accept c force =
            (s, [⟨c, .text "There isn't an active auction in this channel.",
                  true⟩]) ∧
          s.reopen c now =
            (s, [⟨c, .text "There isn't an active auction in this channel.",
                  true⟩]) ∧
          s.restart c now =
            (s, [⟨c, .text "There isn't an active auction in this channel.",
                  true⟩]) ∧
          s.delete c =
            (s, [⟨c, .text "There isn't an active auction in this channel.",
                  true⟩])) ∧
      ∀ a, lookupCh s.channels c = some (some a) →
        (a.status = Status.Finished →
          s.bid c bidder amt i rank now =
              (s, [⟨c, .text ("This auction has already closed and is waiting " ++
                    "on and officer to accept the results."),
                    true⟩]) ∧
            s.stop c =
              (s, [⟨c, .text
                    "This auction has finished already and cannot be stopped.",
                    true⟩])) ∧
          (a.status = Status.Stopped →
            s.bid c bidder amt i rank now =
                (s, [⟨c, .text ("This auction has been stopped and is not " ++
                      "accepting bids at the moment."), true⟩]) ∧
              s.stop c =
                (s, [⟨c, .text "This auction is already stopped.", true⟩]) ∧
              s.accept c force =
                (s, [⟨c, .text
                      "This auction has not finished and cannot be accepted yet.",
                      true⟩])) ∧
          (a.status = Status.Running →
            s.accept c force =
                (s, [⟨c, .text
                      "This auction has not finished and cannot be accepted yet.",
                      true⟩]) ∧
              s.reopen c now =
                (s, [⟨c, .text
                      "This auction has not finished and cannot be reopened yet.",
                      true⟩])) := by
  refine ⟨?_, ?_, ?_⟩
  · intro h0
    refine ⟨?_, ?_, ?_, ?_, ?_, ?_⟩ <;>
      simp [Auctioneer.bid, Auctioneer.stop, Auctioneer.accept,
        Auctioneer.reopen, Auctioneer.restart, Auctioneer.delete, h0]
  · intro h1
    refine ⟨?_, ?_, ?_, ?_, ?_, ?_⟩ <;>
      simp [Auctioneer.bid, Auctioneer.stop, Auctioneer.accept,
        Auctioneer.reopen, Auctioneer.restart, Auctioneer.delete, h1]
  · intro a h2
    refine ⟨?_, ?_, ?_⟩
    · intro hs
      have hns : ¬a.status = Status.Stopped := by rw [hs]; decide
      constructor
      · simp only [Auctioneer.bid, h2]
        rw [if_pos hs]
      · simp only [Auctioneer.stop, h2]
        rw [if_pos hs]
    · intro hs
      have hnf : ¬a.status = Status.Finished := by rw [hs]; decide
      have hnr : ¬a.status = Status.Running := by rw [hs]; decide
      refine ⟨?_, ?_, ?_⟩
      · simp only [Auctioneer.bid, h2]
        rw [if_neg hnf, if_pos hs]
      · simp only [Auctioneer.stop, h2]
        rw [if_neg hnf, if_pos hs]
      · simp only [Auctioneer.accept, h2]
        rw [if_neg hnr, if_pos hs]
    · intro hs
      constructor
      · simp only [Auctioneer.accept, h2]
        rw [if_pos hs]
      · simp only [Auctioneer.reopen, h2]
        rw [if_pos hs]

/-- C10 (witness): Scenario C — `bid` on the Stopped Ring auction yields
the single hidden notice and the state (bid set included) unchanged. -/
theorem guard_rejections_witness :
    auctioneerStopped.bid "ch" "a" 10 0 BidderRank.Member 5 =
      (auctioneerStopped,
       [⟨"ch", .text ("This auction has been stopped and is not " ++
          "accepting bids at the moment."), true⟩]) :=
  (((guard_rejections auctioneerStopped "ch" "a" 10 0 5 BidderRank.Member
      false).2.2
    { item := ⟨"Ring", 1, "officer"⟩, started_at := 0,
      status := .Stopped } rfl).2.1 rfl).1

theorem lookup_setCh (chs : List (String × Option RunningAuction))
    (c0 : String) (v : Option RunningAuction) (c : String) :
    lookupCh (setCh chs c0 v) c =
      (lookupCh chs c).map (fun w => if c = c0 then v else w) := by
  induction chs with
  | nil => rfl
  | cons p rest ih =>
    obtain ⟨k, w0⟩ := p
    simp only [setCh, List.map_cons, lookupCh] at *
    by_cases hk : k = c
    · subst hk
      simp
    · simp [hk, ih]

theorem setCh_keys (chs : List (String × Option RunningAuction))
    (c0 : String) (v : Option RunningAuction) :
    (setCh chs c0 v).map Prod.fst = chs.map Prod.fst := by
  simp [setCh, List.map_map, Function.comp]

theorem lookupCh_init (names : List String) (c : String)
    (v : Option RunningAuction)
    (h : lookupCh (names.map (fun x => (x, none))) c = some v) : v = none := by
  induction names with
  | nil => simp [lookupCh] at h
  | cons n rest ih =>
    simp only [List.map_cons, lookupCh] at h
    split_ifs at h with hn
    · injection h with h
      exact h.symm
    · exact ih h

theorem lookupCh_of_mem (chs : List (String × Option RunningAuction))
    (p : String × Option RunningAuction)
    (hnd : (chs.map Prod.fst).Nodup) (hp : p ∈ chs) :
    lookupCh chs p.1 = some p.2 := by
  induction chs with
  | nil => simp at hp
  | cons q rest ih =>
    simp only [List.map_cons, List.nodup_cons] at hnd
    obtain ⟨hq, hndr⟩ := hnd
    rcases List.mem_cons.mp hp with rfl | hp2
    · simp [lookupCh]
    · have hne : ¬q.1 = p.1 := by
        intro hcon
        exact hq (hcon ▸ List.mem_map_of_mem Prod.fst hp2)
      simp only [lookupCh]
      rw [if_neg hne]
      exact ih hndr hp2

theorem needs_update_running (a : RunningAuction) (now : Int)
    (h : needs_update a now = true) : a.status = Status.Running := by
  by_cases hs : a.status = Status.Running
  · exact hs
  · unfold needs_update at h
    rw [if_pos hs] at h
    cases h

theorem bid_shape (s : Auctioneer) (c0 bidder : String) (amt i now : Int)
    (rank : BidderRank) :
    (s.bid c0 bidder amt i rank now).1 = s ∨
      ∃ a0, lookupCh s.channels c0 = some (some a0) ∧
        a0.status = Status.Running ∧
        (s.bid c0 bidder amt i rank now).1.channels =
          setCh s.channels c0
            (some { a0 with bids := addBid a0.bids ⟨bidder, rank, amt, i⟩,
                            last_bid := some now }) := by
  rcases hl : lookupCh s.channels c0 with _ | (_ | a0)
  · left
    simp [Auctioneer.bid, hl]
  · left
    simp [Auctioneer.bid, hl]
  · simp only [Auctioneer.bid, hl]
    by_cases hf : a0.status = Status.Finished
    · left
      rw [if_pos hf]
    · rw [if_neg hf]
      by_cases hst : a0.status = Status.Stopped
      · left
        rw [if_pos hst]
      · rw [if_neg hst]
        have hr : a0.status = Status.Running := by
          cases hstat : a0.status
          · rfl
          · exact absurd hstat hst
          · exact absurd hstat hf
        by_cases hv : (validate_bid bidder amt a0.bids s.dkp
            s.limits.valuable s.limits.minimum s.limits.maximum).1 = false
        · left
          rw [if_pos hv]
        · right
          refine ⟨a0, rfl, hr, ?_⟩
          rw [if_neg hv]

theorem stop_shape (s : Auctioneer) (c0 : String) :
    (s.stop c0).1 = s ∨
      ∃ a0, lookupCh s.channels c0 = some (some a0) ∧
        a0.status = Status.Running ∧
        (s.stop c0).1.channels =
          setCh s.channels c0 (some { a0 with status := Status.Stopped }) := by
  rcases hl : lookupCh s.channels c0 with _ | (_ | a0)
  · left
    simp [Auctioneer.stop, hl]
  · left
    simp [Auctioneer.stop, hl]
  · simp only [Auctioneer.stop, hl]
    by_cases hf : a0.status = Status.Finished
    · left
      rw [if_pos hf]
    · rw [if_neg hf]
      by_cases hst : a0.status = Status.Stopped
      · left
        rw [if_pos hst]
      · rw [if_neg hst]
        have hr : a0.status = Status.Running := by
          cases hstat : a0.status
          · rfl
          · exact absurd hstat hst
          · exact absurd hstat hf
        exact Or.inr ⟨a0, rfl, hr, rfl⟩

theorem accept_state (s : Auctioneer) (c0 : String) (force : Bool) :
    (s.accept c0 force).1 = s := by
  rcases hl : lookupCh s.channels c0 with _ | (_ | a0)
  · simp [Auctioneer.accept, hl]
  · simp [Auctioneer.accept, hl]
  · simp only [Auctioneer.accept, hl]
    split_ifs <;> rfl

theorem reopen_shape (s : Auctioneer) (c0 : String) (now : Int) :
    (s.reopen c0 now).1 = s ∨
      ∃ a0, lookupCh s.channels c0 = some (some a0) ∧
        ¬a0.status = Status.Running ∧
        (s.reopen c0 now).1.channels =
          setCh s.channels c0
            (some { a0 with results := none, started_at := now,
                            last_updated := none, last_bid := none,
                            status := Status.Running }) := by
  rcases hl : lookupCh s.channels c0 with _ | (_ | a0)
  · left
    simp [Auctioneer.reopen, hl]
  · left
    simp [Auctioneer.reopen, hl]
  · simp only [Auctioneer.reopen, hl]
    by_cases hr : a0.status = Status.Running
    · left
      rw [if_pos hr]
    · rw [if_neg hr]
      exact Or.inr ⟨a0, rfl, hr, rfl⟩

theorem restart_shape (s : Auctioneer) (c0 : String) (now : Int) :
    (s.restart c0 now).1 = s ∨
      ∃ a0, lookupCh s.channels c0 = some (some a0) ∧
        (s.restart c0 now).1.channels =
          setCh s.channels c0 (some (newAuction a0.item now)) := by
  rcases hl : lookupCh s.channels c0 with _ | (_ | a0)
  · left
    simp [Auctioneer.restart, hl]
  · left
    simp [Auctioneer.restart, hl]
  · simp only [Auctioneer.restart, hl]
    exact Or.inr ⟨a0, rfl, rfl⟩

theorem delete_shape (s : Auctioneer) (c0 : String) :
    (s.delete c0).1 = s ∨
      (s.delete c0).1.channels = setCh s.channels c0 none := by
  rcases hl : lookupCh s.channels c0 with _ | (_ | a0)
  · left
    simp [Auctioneer.delete, hl]
  · left
    simp [Auctioneer.delete, hl]
  · simp only [Auctioneer.delete, hl]
    exact Or.inr trivial

theorem runChannel_anatomy (limits : Limits) (dkp : String → Int) (now : Int)
    (a : RunningAuction) :
    (time_left a now = 0 ∧ a.status = Status.Running ∧
      (runChannel limits dkp now (some a)).1 =
        some { a with status := Status.Finished,
                      results := some (determine_results a dkp
                        limits.member) }) ∨
    (¬(time_left a now = 0 ∧ a.status = Status.Running) ∧
      ((runChannel limits dkp now (some a)).1 = some a ∨
        (needs_update a now = true ∧
          (runChannel limits dkp now (some a)).1 =
            some { a with last_updated := some now }))) := by
  by_cases hc : time_left a now = 0 ∧ a.status = Status.Running
  · left
    refine ⟨hc.1, hc.2, ?_⟩
    rw [runChannel_closes limits dkp now a hc.1 hc.2]
  · right
    refine ⟨hc, ?_⟩
    simp only [runChannel]
    rw [if_neg hc]
    by_cases hnu : needs_update a now = true
    · right
      refine ⟨hnu, ?_⟩
      simp [hnu]
    · left
      simp at hnu
      simp [hnu]

theorem ChanInv_setCh (chs : List (String × Option RunningAuction))
    (c0 : String) (v : Option RunningAuction) (hinv : ChanInv chs)
    (hv : ∀ a, v = some a →
      (a.results.isSome = true ↔ a.status = Status.Finished)) :
    ChanInv (setCh chs c0 v) := by
  intro c a h
  rw [lookup_setCh] at h
  rcases hw : lookupCh chs c with _ | w
  · rw [hw] at h
    cases h
  · rw [hw] at h
    injection h with h
    dsimp only at h
    by_cases hc : c = c0
    · rw [if_pos hc] at h
      exact hv a h
    · rw [if_neg hc] at h
      rw [h] at hw
      exact hinv c a hw

theorem ChanInv_runChans (limits : Limits) (dkp : String → Int) (now : Int)
    (chs : List (String × Option RunningAuction)) (hinv : ChanInv chs) :
    ChanInv (runChans limits dkp now chs) := by
  intro c a h
  rw [lookupCh_runChans] at h
  rcases hw : lookupCh chs c with _ | w
  · rw [hw] at h
    cases h
  · rw [hw] at h
    injection h with h
    dsimp only at h
    rcases w with _ | a0
    · simp [runChannel] at h
    · rcases runChannel_anatomy limits dkp now a0 with
        ⟨_, _, heq⟩ | ⟨_, heq | ⟨_, heq⟩⟩
      · rw [heq] at h
        injection h with h
        subst h
        simp
      · rw [heq] at h
        injection h with h
        subst h
        exact hinv c a0 hw
      · rw [heq] at h
        injection h with h
        subst h
        exact hinv c a0 hw

theorem lookup_empty_of_mem (chs : List (String × Option RunningAuction))
    (ch : String) (hnd : (chs.map Prod.fst).Nodup)
    (hmem : ch ∈ (chs.filter (fun p => p.2 = none)).map Prod.fst) :
    lookupCh chs ch = some none := by
  rcases List.mem_map.mp hmem with ⟨p, hp, rfl⟩
  have hpc : p ∈ chs := List.mem_of_mem_filter hp
  have hpn : p.2 = none := by
    have := (List.mem_filter.mp hp).2
    simpa using this
  have hl := lookupCh_of_mem chs p hnd hpc
  rw [hpn] at hl
  exact hl

theorem nextLoop_inv (sel : List String → Nat) (now : Int) :
    ∀ (pending : List AuctionItem)
      (chs : List (String × Option RunningAuction)),
      ChanInv chs → ChanInv (nextLoop sel now pending chs).2.1 := by
  intro pending
  induction pending with
  | nil => intro chs h; exact h
  | cons item rest ih =>
    intro chs h
    simp only [nextLoop]
    split
    · exact h
    · dsimp only
      apply ih
      apply ChanInv_setCh _ _ _ h
      intro a ha
      injection ha with ha
      subst ha
      simp [newAuction]

theorem nextLoop_preserve (sel : List String → Nat) (now : Int) :
    ∀ (pending : List AuctionItem)
      (chs : List (String × Option RunningAuction)) (c : String)
      (a : RunningAuction),
      (chs.map Prod.fst).Nodup → lookupCh chs c = some (some a) →
      lookupCh (nextLoop sel now pending chs).2.1 c = some (some a) := by
  intro pending
  induction pending with
  | nil => intro chs c a _ h; exact h
  | cons item rest ih =>
    intro chs c a hnd h
    simp only [nextLoop]
    split
    · exact h
    · next e es heq =>
      have hmem : (e :: es).get ⟨sel (e :: es) % (e :: es).length,
          Nat.mod_lt _ (Nat.succ_pos es.length)⟩ ∈
            (chs.filter (fun p => p.2 = none)).map Prod.fst := by
        rw [heq]
        exact List.get_mem _ _ _
      have hGET := lookup_empty_of_mem chs _ hnd hmem
      have hcc : ¬c = (e :: es).get ⟨sel (e :: es) % (e :: es).length,
          Nat.mod_lt _ (Nat.succ_pos es.length)⟩ := by
        intro hcon
        rw [← hcon] at hGET
        rw [h] at hGET
        cases hGET
      apply ih
      · rw [setCh_keys]
        exact hnd
      · rw [lookup_setCh, h]
        show some (if c = _ then _ else some a) = some (some a)
        rw [if_neg hcc]

/-- C7: in every Auctioneer state reachable from a fresh one by any
sequence of operations, each held auction has non-null cached results
exactly when its status is Finished. -/
theorem results_iff_finished (s : Auctioneer) (hs : Reachable s) (c : String)
    (a : RunningAuction) (h : lookupCh s.channels c = some (some a)) :
    a.results.isSome = true ↔ a.status = Status.Finished := by
  have hinv : ChanInv s.channels := by
    clear h
    induction hs with
    | init names limits =>
      intro c a h
      cases lookupCh_init names c _ h
    | step s0 op _ ih =>
      cases op with
      | bid c0 bidder amt i rank now =>
        rcases bid_shape s0 c0 bidder amt i now rank with heq | ⟨a0, hl, _, hch⟩
        · show ChanInv (s0.bid c0 bidder amt i rank now).1.channels
          rw [heq]
          exact ih
        · show ChanInv (s0.bid c0 bidder amt i rank now).1.channels
          rw [hch]
          apply ChanInv_setCh _ _ _ ih
          intro a ha
          injection ha with ha
          subst ha
          exact ih c0 a0 hl
      | stop c0 =>
        rcases stop_shape s0 c0 with heq | ⟨a0, hl, hr, hch⟩
        · show ChanInv (s0.stop c0).1.channels
          rw [heq]
          exact ih
        · show ChanInv (s0.stop c0).1.channels
          rw [hch]
          apply ChanInv_setCh _ _ _ ih
          intro a ha
          injection ha with ha
          subst ha
          have hres := ih c0 a0 hl
          rw [hr] at hres
          constructor
          · intro hsome
            exact absurd (hres.mp hsome) (by decide)
          · intro hcon
            exact Status.noConfusion hcon
      | accept c0 force =>
        show ChanInv (s0.accept c0 force).1.channels
        rw [accept_state]
        exact ih
      | reopen c0 now =>
        rcases reopen_shape s0 c0 now with heq | ⟨a0, _, _, hch⟩
        · show ChanInv (s0.reopen c0 now).1.channels
          rw [heq]
          exact ih
        · show ChanInv (s0.reopen c0 now).1.channels
          rw [hch]
          apply ChanInv_setCh _ _ _ ih
          intro a ha
          injection ha with ha
          subst ha
          simp
      | restart c0 now =>
        rcases restart_shape s0 c0 now with heq | ⟨a0, _, hch⟩
        · show ChanInv (s0.restart c0 now).1.channels
          rw [heq]
          exact ih
        · show ChanInv (s0.restart c0 now).1.channels
          rw [hch]
          apply ChanInv_setCh _ _ _ ih
          intro a ha
          injection ha with ha
          subst ha
          simp [newAuction]
      | delete c0 =>
        rcases delete_shape s0 c0 with heq | hch
        · show ChanInv (s0.delete c0).1.channels
          rw [heq]
          exact ih
        · show ChanInv (s0.delete c0).1.channels
          rw [hch]
          apply ChanInv_setCh _ _ _ ih
          intro a ha
          cases ha
      | advance now =>
        show ChanInv (runChans s0.limits s0.dkp now s0.channels)
        exact ChanInv_runChans _ _ _ _ ih
      | next sel now =>
        show ChanInv (nextLoop sel now s0.pending_items s0.channels).2.1
        exact nextLoop_inv sel now _ _ ih
      | add item =>
        exact ih
      | updateDkp d =>
        exact ih
  exact hinv c a h

/-- C7 (witness): the invariant evaluated on the state reached by adding
one item to a fresh Auctioneer and letting `next` start it. -/
theorem results_iff_finished_witness :
    (newAuction ⟨"Gem", 1, "officer"⟩ 0).results.isSome = true ↔
      (newAuction ⟨"Gem", 1, "officer"⟩ 0).status = Status.Finished :=
  results_iff_finished
    (applyOp (applyOp (initAuctioneer ["ch"] limitsOpen)
      (Op.add ⟨"Gem", 1, "officer"⟩)).1 (Op.next (fun _ => 0) 0)).1
    (Reachable.step _ _ (Reachable.step _ _ (Reachable.init ["ch"] limitsOpen)))
    "ch" (newAuction ⟨"Gem", 1, "officer"⟩ 0) rfl

theorem lookup_setCh_cases (chs : List (String × Option RunningAuction))
    (c c0 : String) (v : Option RunningAuction) (a a' : RunningAuction)
    (h : lookupCh chs c = some (some a))
    (h' : lookupCh (setCh chs c0 v) c = some (some a')) :
    (c = c0 ∧ v = some a') ∨ (¬c = c0 ∧ a' = a) := by
  rw [lookup_setCh, h] at h'
  have h'' : (if c = c0 then v else some a) = some a' := by
    injection h'
  by_cases hc : c = c0
  · rw [if_pos hc] at h''
    exact Or.inl ⟨hc, h''⟩
  · rw [if_neg hc] at h''
    injection h'' with h''
    exact Or.inr ⟨hc, h''.symm⟩

theorem status_transitions_refl (op : Op) (c : String) (a : RunningAuction) :
    (a.status = Status.Finished → a.status = Status.Finished ∨
      (a.status = Status.Running ∧
        ∃ now, op = Op.advance now ∧ time_left a now = 0)) ∧
    (a.status = Status.Stopped → a.status = Status.Stopped ∨
      (a.status = Status.Running ∧ op = Op.stop c)) ∧
    (a.status ≠ Status.Running → a.status = Status.Running →
      (∃ now, op = Op.reopen c now) ∨
      (∃ now, op = Op.restart c now ∧ a = newAuction a.item now)) ∧
    (a.status = Status.Stopped → a.status ≠ Status.Finished) ∧
    (∀ now, op = Op.advance now → a.status ≠ Status.Running → a = a) ∧
    (∀ sel now, op = Op.next sel now → a = a) := by
  refine ⟨fun h => Or.inl h, fun h => Or.inl h,
    fun hnr hr => absurd hr hnr, fun hst hcon => ?_,
    fun _ _ _ => rfl, fun _ _ _ => rfl⟩
  rw [hst] at hcon
  cases hcon

/-- C8: over single operations on one channel's held auction — Finished
is entered only from Running by time expiry inside a tick; Stopped is
entered only from Running by `stop`; a non-Running auction returns to
Running only via `reopen` (or by being replaced whole by `restart`); a
Stopped auction never becomes Finished; and the autonomous operations
(`advance` on a non-Running auction, and `next`) never change a held
auction. -/
theorem status_machine (s : Auctioneer) (op : Op) (c : String)
    (a a' : RunningAuction)
    (hnd : (s.channels.map Prod.fst).Nodup)
    (h : lookupCh s.channels c = some (some a))
    (h' : lookupCh (applyOp s op).1.channels c = some (some a')) :
    (a'.status = Status.Finished → a.status = Status.Finished ∨
      (a.status = Status.Running ∧
        ∃ now, op = Op.advance now ∧ time_left a now = 0)) ∧
    (a'.status = Status.Stopped → a.status = Status.Stopped ∨
      (a.status = Status.Running ∧ op = Op.stop c)) ∧
    (a.status ≠ Status.Running → a'.status = Status.Running →
      (∃ now, op = Op.reopen c now) ∨
      (∃ now, op = Op.restart c now ∧ a' = newAuction a.item now)) ∧
    (a.status = Status.Stopped → a'.status ≠ Status.Finished) ∧
    (∀ now, op = Op.advance now → a.status ≠ Status.Running → a' = a) ∧
    (∀ sel now, op = Op.next sel now → a' = a) := by
  cases op with
  | bid c0 bidder amt i rank now =>
    have h'2 : lookupCh (s.bid c0 bidder amt i rank now).1.channels c =
      some (some a') := h'
    rcases bid_shape s c0 bidder amt i now rank with heq | ⟨a0, hl, hr, hch⟩
    · rw [heq, h] at h'2
      injection h'2 with h'2
      injection h'2 with h'2
      subst h'2
      exact status_transitions_refl _ c a
    · rw [hch] at h'2
      rcases lookup_setCh_cases _ _ _ _ _ _ h h'2 with ⟨hc0, hv⟩ | ⟨_, haa⟩
      · subst hc0
        rw [h] at hl
        injection hl with hl
        injection hl with hl
        subst hl
        injection hv with hv
        subst hv
        exact ⟨fun hf => Or.inl hf, fun hsp => Or.inl hsp,
          fun hnr hrun => absurd hrun hnr,
          fun hst hcon => absurd (hst.symm.trans hcon) (by decide),
          fun _ hop _ => Op.noConfusion hop,
          fun _ _ hop => Op.noConfusion hop⟩
      · subst haa
        exact status_transitions_refl _ c a'
  | stop c0 =>
    have h'2 : lookupCh (s.stop c0).1.channels c = some (some a') := h'
    rcases stop_shape s c0 with heq | ⟨a0, hl, hr, hch⟩
    · rw [heq, h] at h'2
      injection h'2 with h'2
      injection h'2 with h'2
      subst h'2
      exact status_transitions_refl _ c a
    · rw [hch] at h'2
      rcases lookup_setCh_cases _ _ _ _ _ _ h h'2 with ⟨hc0, hv⟩ | ⟨_, haa⟩
      · subst hc0
        rw [h] at hl
        injection hl with hl
        injection hl with hl
        subst hl
        injection hv with hv
        subst hv
        exact ⟨fun hf => Status.noConfusion hf,
          fun _ => Or.inr ⟨hr, rfl⟩,
          fun hnr _ => absurd hr hnr,
          fun _ hcon => Status.noConfusion hcon,
          fun _ hop _ => Op.noConfusion hop,
          fun _ _ hop => Op.noConfusion hop⟩
      · subst haa
        exact status_transitions_refl _ c a'
  | accept c0 force =>
    have h'2 : lookupCh (s.accept c0 force).1.channels c = some (some a') := h'
    rw [accept_state, h] at h'2
    injection h'2 with h'2
    injection h'2 with h'2
    subst h'2
    exact status_transitions_refl _ c a
  | reopen c0 now =>
    have h'2 : lookupCh (s.reopen c0 now).1.channels c = some (some a') := h'
    rcases reopen_shape s c0 now with heq | ⟨a0, hl, hnr0, hch⟩
    · rw [heq, h] at h'2
      injection h'2 with h'2
      injection h'2 with h'2
      subst h'2
      exact status_transitions_refl _ c a
    · rw [hch] at h'2
      rcases lookup_setCh_cases _ _ _ _ _ _ h h'2 with ⟨hc0, hv⟩ | ⟨_, haa⟩
      · subst hc0
        rw [h] at hl
        injection hl with hl
        injection hl with hl
        subst hl
        injection hv with hv
        subst hv
        exact ⟨fun hf => Status.noConfusion hf,
          fun hsp => Status.noConfusion hsp,
          fun _ _ => Or.inl ⟨now, rfl⟩,
          fun _ hcon => Status.noConfusion hcon,
          fun _ hop _ => Op.noConfusion hop,
          fun _ _ hop => Op.noConfusion hop⟩
      · subst haa
        exact status_transitions_refl _ c a'
  | restart c0 now =>
    have h'2 : lookupCh (s.restart c0 now).1.channels c = some (some a') := h'
    rcases restart_shape s c0 now with heq | ⟨a0, hl, hch⟩
    · rw [heq, h] at h'2
      injection h'2 with h'2
      injection h'2 with h'2
      subst h'2
      exact status_transitions_refl _ c a
    · rw [hch] at h'2
      rcases lookup_setCh_cases _ _ _ _ _ _ h h'2 with ⟨hc0, hv⟩ | ⟨_, haa⟩
      · subst hc0
        rw [h] at hl
        injection hl with hl
        injection hl with hl
        subst hl
        injection hv with hv
        subst hv
        exact ⟨fun hf => Status.noConfusion hf,
          fun hsp => Status.noConfusion hsp,
          fun _ _ => Or.inr ⟨now, rfl, rfl⟩,
          fun _ hcon => Status.noConfusion hcon,
          fun _ hop _ => Op.noConfusion hop,
          fun _ _ hop => Op.noConfusion hop⟩
      · subst haa
        exact status_transitions_refl _ c a'
  | delete c0 =>
    have h'2 : lookupCh (s.delete c0).1.channels c = some (some a') := h'
    rcases delete_shape s c0 with heq | hch
    · rw [heq, h] at h'2
      injection h'2 with h'2
      injection h'2 with h'2
      subst h'2
      exact status_transitions_refl _ c a
    · rw [hch] at h'2
      rcases lookup_setCh_cases _ _ _ _ _ _ h h'2 with ⟨_, hv⟩ | ⟨_, haa⟩
      · cases hv
      · subst haa
        exact status_transitions_refl _ c a'
  | advance now =>
    have h'2 : lookupCh (runChans s.limits s.dkp now s.channels) c =
      some (some a') := h'
    rw [lookupCh_runChans, h] at h'2
    have h'' : (runChannel s.limits s.dkp now (some a)).1 = some a' := by
      injection h'2
    rcases runChannel_anatomy s.limits s.dkp now a with
      ⟨ht, hr, heq⟩ | ⟨_, heq | ⟨hnu, heq⟩⟩
    · rw [heq] at h''
      injection h'' with h''
      subst h''
      exact ⟨fun _ => Or.inr ⟨hr, now, rfl, ht⟩,
        fun hsp => Status.noConfusion hsp,
        fun hnr _ => absurd hr hnr,
        fun hst => absurd (hst.symm.trans hr) (by decide),
        fun _ _ hnr => absurd hr hnr,
        fun _ _ hop => Op.noConfusion hop⟩
    · rw [heq] at h''
      injection h'' with h''
      subst h''
      exact status_transitions_refl _ c a
    · rw [heq] at h''
      injection h'' with h''
      subst h''
      have hrun : a.status = Status.Running := needs_update_running a now hnu
      exact ⟨fun hf => Or.inl hf, fun hsp => Or.inl hsp,
        fun hnr hr2 => absurd hr2 hnr,
        fun hst hcon => absurd (hst.symm.trans hcon) (by decide),
        fun _ _ hnr => absurd hrun hnr,
        fun _ _ hop => Op.noConfusion hop⟩
  | next sel now =>
    have h'2 : lookupCh (nextLoop sel now s.pending_items s.channels).2.1 c =
      some (some a') := h'
    rw [nextLoop_preserve sel now s.pending_items s.channels c a hnd h] at h'2
    injection h'2 with h'2
    injection h'2 with h'2
    subst h'2
    exact status_transitions_refl _ c a
  | add item =>
    have h'2 : lookupCh s.channels c = some (some a') := h'
    rw [h] at h'2
    injection h'2 with h'2
    injection h'2 with h'2
    subst h'2
    exact status_transitions_refl _ c a
  | updateDkp d =>
    have h'2 : lookupCh s.channels c = some (some a') := h'
    rw [h] at h'2
    injection h'2 with h'2
    injection h'2 with h'2
    subst h'2
    exact status_transitions_refl _ c a

/-- C8 (witness): the transition facts evaluated on `stop` of the fresh
Ring auction — the Stopped outcome arises from Running via `stop`. -/
theorem status_machine_witness :
    auctionRing.status = Status.Stopped ∨
      (auctionRing.status = Status.Running ∧ Op.stop "ch" = Op.stop "ch") :=
  (status_machine auctioneerRing (Op.stop "ch") "ch" auctionRing
    { auctionRing with status := Status.Stopped } (by decide) rfl
    (by decide)).2.1 rfl
